import Mathlib

/-!
Verification of the repository-history mining engine of `reportr`
(`src/functions/git_history.py`): the diff statistics analyzer, the
commit-message classifier, the repository structure snapshot and the
history miner `get_git_history`.

Python strings are modelled as lists of characters (`PyStr`); a value
that may be Python `None` is modelled as an `Option`.  The GitPython
objects the miner reads (commits, branches, diff entries) are modelled
as explicit data passed to the functions, and `os.walk`'s yield
sequence is likewise an explicit input.
-/

/-- A Python string, modelled as its sequence of characters. -/
abbrev PyStr := List Char

/-- Python `s.split(sep)` for a one-character separator `sep`:
`split` of the empty string is `[""]`, and a trailing separator
produces a trailing empty piece. -/
def pySplit (sep : Char) : PyStr → List PyStr
  | [] => [[]]
  | c :: rest =>
    if c = sep then [] :: pySplit sep rest
    else
      match pySplit sep rest with
      | [] => [[c]]
      | l :: ls => (c :: l) :: ls

/-- Python `line.startswith(p)`. -/
def startswith (p line : PyStr) : Bool := p.isPrefixOf line

/-- Python `kw in s` for strings: contiguous-substring containment
(`kw` occurs as a prefix of some suffix of `s`). -/
def strIn (kw : PyStr) : PyStr → Bool
  | [] => kw.isEmpty
  | c :: rest => kw.isPrefixOf (c :: rest) || strIn kw rest

/-- Python `s.lower()` (the messages classified are ASCII, where
`Char.toLower` agrees with `str.lower`). -/
def pyLower (s : PyStr) : PyStr := s.map Char.toLower

/-- Python `s.strip()`. -/
def pyStrip (s : PyStr) : PyStr :=
  ((s.dropWhile Char.isWhitespace).reverse.dropWhile Char.isWhitespace).reverse

/-- The test the loop body of `analyze_diff_for_lines` applies to count a
line as added: `line.startswith("+") and not line.startswith("+++")`
(src/functions/git_history.py:68). -/
def isAddedLine (line : PyStr) : Bool :=
  startswith ("+").data line && !startswith ("+++").data line

/-- The test counting a line as deleted: `line.startswith("-") and not
line.startswith("---")` (src/functions/git_history.py:70). -/
def isDeletedLine (line : PyStr) : Bool :=
  startswith ("-").data line && !startswith ("---").data line

/-- One iteration of the counting loop of `analyze_diff_for_lines`
(src/functions/git_history.py:67-71): the `elif` branch is reached only
when the `+` test failed. -/
def diffLineStep (acc : Nat × Nat) (line : PyStr) : Nat × Nat :=
  if isAddedLine line then (acc.1 + 1, acc.2)
  else if isDeletedLine line then (acc.1, acc.2 + 1)
  else acc

/-- Embeds `analyze_diff_for_lines` (src/functions/git_history.py:58-73).
`none` models Python `None`; the truthiness guard `if diff_content:`
treats both `None` and the empty string as falsy, so both short-circuit
to `(0, 0)`. -/
def analyze_diff_for_lines (diff_content : Option PyStr) : Nat × Nat :=
  match diff_content with
  | none => (0, 0)
  | some s =>
    if s = [] then (0, 0)
    else (pySplit '\n' s).foldl diffLineStep (0, 0)

/-- The keyword lists of `analyze_commit_message`
(src/functions/git_history.py:82-89), in source order. -/
def fixKeywords : List PyStr :=
  [("fix").data, ("bug").data, ("issue").data, ("error").data]

def featureKeywords : List PyStr :=
  [("feat").data, ("add").data, ("implement").data, ("new").data]

def refactorKeywords : List PyStr :=
  [("refactor").data, ("clean").data, ("restructure").data]

def docsKeywords : List PyStr :=
  [("doc").data, ("readme").data, ("comment").data]

/-- Python `any(word in message_lower for word in kws)`. -/
def anyKeywordIn (kws : List PyStr) (s : PyStr) : Bool :=
  kws.any (fun w => strIn w s)

/-- Embeds `analyze_commit_message` (src/functions/git_history.py:76-91). -/
def analyze_commit_message (message : PyStr) : PyStr :=
  let message_lower := pyLower message
  if anyKeywordIn fixKeywords message_lower then ("fix").data
  else if anyKeywordIn featureKeywords message_lower then ("feature").data
  else if anyKeywordIn refactorKeywords message_lower then ("refactor").data
  else if anyKeywordIn docsKeywords message_lower then ("docs").data
  else ("other").data

/-! ### Diff extraction (`get_commit_diffs_by_file`, lines 12-55)

A GitPython diff entry carries a pre-change path `a_path` (absent for a
newly added file), a post-change path `b_path` (absent for a deleted
file) and the patch text `diff`.  Paths are `None` or non-empty, so the
truthiness tests `if diff.a_path:` / `elif diff.b_path:` are modelled by
the `Option`. -/

structure DiffEntry where
  a_path : Option PyStr
  b_path : Option PyStr
  diff : Option PyStr
deriving DecidableEq

/-- The value stored for a diff entry (src/functions/git_history.py:43-49):
the decoded patch text when `diff.diff` is truthy, else the sentinel. -/
def diffEntryText (e : DiffEntry) : PyStr :=
  match e.diff with
  | some d => if d = [] then ("No diff content available").data else d
  | none => ("No diff content available").data

/-- Python `diffs[k] = v` on an insertion-ordered dict: overwrite the
existing entry in place, else append. -/
def dictSet (m : List (PyStr × PyStr)) (k v : PyStr) : List (PyStr × PyStr) :=
  match m with
  | [] => [(k, v)]
  | (k0, v0) :: rest =>
    if k0 = k then (k0, v) :: rest else (k0, v0) :: dictSet rest k v

/-- One iteration of the entry loop of `get_commit_diffs_by_file`
(src/functions/git_history.py:34-49): `if diff.a_path: ... elif
diff.b_path: ... else: continue`, then store the diff text under the
chosen path. -/
def diffsStep (diffs : List (PyStr × PyStr)) (e : DiffEntry) :
    List (PyStr × PyStr) :=
  match e.a_path with
  | some p => dictSet diffs p (diffEntryText e)
  | none =>
    match e.b_path with
    | some p => dictSet diffs p (diffEntryText e)
    | none => diffs

/-- Embeds the entry loop of `get_commit_diffs_by_file`
(src/functions/git_history.py:34-49) over the diff entries GitPython
yields for the commit. -/
def get_commit_diffs_by_file (entries : List DiffEntry) : List (PyStr × PyStr) :=
  entries.foldl diffsStep []

/-! ### The history miner (`get_git_history`, lines 121-282) -/

/-- A commit as the miner reads it from GitPython, with the per-file diff
mapping that `get_commit_diffs_by_file(repo_path, commit.hexsha)`
returns for it attached. -/
structure PyCommit where
  hexsha : PyStr
  parentsCount : Nat
  authorName : PyStr
  committedDate : Int
  message : PyStr
  diffs : List (PyStr × PyStr)
deriving DecidableEq

/-- `lines_added` of a commit: the sum of the first components of
`analyze_diff_for_lines` over the per-file diff contents
(src/functions/git_history.py:214-217). -/
def diffLinesAdded (diffs : List (PyStr × PyStr)) : Nat :=
  (diffs.map (fun fd => (analyze_diff_for_lines (some fd.2)).1)).sum

/-- `lines_deleted` of a commit, summed the same way. -/
def diffLinesDeleted (diffs : List (PyStr × PyStr)) : Nat :=
  (diffs.map (fun fd => (analyze_diff_for_lines (some fd.2)).2)).sum

/-- The per-commit record appended to `commit_information`
(src/functions/git_history.py:246-257).  The code formats the date with
`strftime`; the record here keeps the raw committer timestamp. -/
structure CommitRecord where
  hash : PyStr
  author : PyStr
  date : Int
  message : PyStr
  diffs : List (PyStr × PyStr)
  lines_added : Nat
  lines_deleted : Nat
  files_changed : Nat
deriving DecidableEq

def mkCommitRecord (c : PyCommit) : CommitRecord :=
  { hash := c.hexsha
    author := c.authorName
    date := c.committedDate
    message := pyStrip c.message
    diffs := c.diffs
    lines_added := diffLinesAdded c.diffs
    lines_deleted := diffLinesDeleted c.diffs
    files_changed := c.diffs.length }

/-- One contributor's accumulator in the `contributors` defaultdict
(src/functions/git_history.py:176-183). -/
structure Rollup where
  commits : Nat
  lines_added : Nat
  lines_deleted : Nat
  files_changed : Nat
deriving DecidableEq

/-- The four `contributors[author_name][...] += ...` updates
(src/functions/git_history.py:241-244) on the insertion-ordered
defaultdict: bump the existing entry, or create it with the
defaultdict's zero default first. -/
def updateContributor (m : List (PyStr × Rollup)) (a : PyStr)
    (la ld fc : Nat) : List (PyStr × Rollup) :=
  match m with
  | [] => [(a, ⟨1, la, ld, fc⟩)]
  | (k, r) :: rest =>
    if k = a then
      (k, ⟨r.commits + 1, r.lines_added + la, r.lines_deleted + ld,
           r.files_changed + fc⟩) :: rest
    else (k, r) :: updateContributor rest a la ld fc

/-- The state the commit loop threads: `commit_information` and
`contributors`.  The aggregates the loop also maintains but the returned
`history` dict never surfaces (`file_changes`, `file_types`,
`commit_types`, `day_activity`, `total_*`) are omitted. -/
structure MineState where
  records : List CommitRecord
  contributors : List (PyStr × Rollup)
deriving DecidableEq

/-- The contributor-filter guard (src/functions/git_history.py:202-203):
`if contributor_filter and author_name not in contributor_filter:
continue` — an empty filter list is falsy in Python, so it filters
nothing. -/
def passesFilter (filt : Option (List PyStr)) (a : PyStr) : Bool :=
  match filt with
  | none => true
  | some f => if f.isEmpty then true else f.contains a

/-- One iteration of the commit loop (src/functions/git_history.py:193-257):
skip merge commits, apply the contributor filter, then update the
contributor rollup and append the commit record. -/
def mineStep (filt : Option (List PyStr)) (st : MineState) (c : PyCommit) :
    MineState :=
  if 1 < c.parentsCount then st
  else if !passesFilter filt c.authorName then st
  else
    { records := st.records ++ [mkCommitRecord c]
      contributors := updateContributor st.contributors c.authorName
        (diffLinesAdded c.diffs) (diffLinesDeleted c.diffs) c.diffs.length }

/-- The whole commit loop. -/
def processCommits (filt : Option (List PyStr)) (cs : List PyCommit) :
    MineState :=
  cs.foldl (mineStep filt) ⟨[], []⟩

/-! ### Repository structure snapshot (`get_repository_structure`, lines 94-118)

`os.walk(repo_path)`'s yield sequence is modelled as the explicit input
`walk`: the full path of each walked directory together with
`len(files)` for it, in top-down walk order (the first entry is
`repo_path` itself). -/

/-- `os.path.relpath(root, repo_path)` for a walk entry: `"."` for the
top directory, else `root` with the leading `repo_path + "/"` removed
(walk roots are always `repo_path` or paths below it). -/
def relpath (root repoPath : PyStr) : PyStr :=
  if root = repoPath then ['.'] else root.drop (repoPath.length + 1)

/-- The line built for one walk entry (src/functions/git_history.py:106-110),
or `none` when the entry is skipped by the `if ".git" in root: continue`
guard.  The depth test at the end of the loop body
(`if len(rel_path.split(os.sep)) > 2: continue`,
src/functions/git_history.py:113-114) is `continue` as the final
statement of the loop and therefore changes nothing. -/
def structureEntry (repoPath : PyStr) (e : PyStr × Nat) : Option PyStr :=
  if strIn (".git").data e.1 then none
  else
    let rel := relpath e.1 repoPath
    if rel = ['.'] then
      some (("Root: ").data ++ Nat.toDigits 10 e.2 ++ (" files").data)
    else
      some (rel ++ ("/: ").data ++ Nat.toDigits 10 e.2 ++ (" files").data)

/-- Embeds `get_repository_structure` (src/functions/git_history.py:94-118):
build the line for every non-skipped walk entry, then `structure[:10]`. -/
def get_repository_structure (repoPath : PyStr) (walk : List (PyStr × Nat)) :
    List PyStr :=
  ((walk.filterMap (structureEntry repoPath)).take 10)

/-! ### Branch resolution and the mining result -/

/-- The git repository as the miner reads it: the refs `iter_commits`
can resolve, each with its commit list in iteration order
(reverse-chronological), and the commits `repo.iter_commits()` with no
arguments yields for the current head.  A ref absent from `branches`
models the exception `iter_commits` raises for an unresolvable rev. -/
structure GitRepo where
  branches : List (PyStr × List PyCommit)
  headCommits : List PyCommit
deriving DecidableEq

def lookupBranch (repo : GitRepo) (b : PyStr) : Option (List PyCommit) :=
  (repo.branches.find? (fun p => p.1 == b)).map (fun p => p.2)

/-- `iter_commits(rev, since=since)`: only commits with committer time at
or after `since` survive git's `--since` filter. -/
def iterCommitsSince (cs : List PyCommit) (since : Int) : List PyCommit :=
  cs.filter (fun c => since ≤ c.committedDate)

/-- One `try: commits = list(repo.iter_commits(b, since=...)) except:
commits = []` attempt of the default branch resolution
(src/functions/git_history.py:156-166). -/
def branchCommitsSince (repo : GitRepo) (b : PyStr) (since : Int) :
    List PyCommit :=
  match lookupBranch repo b with
  | none => []
  | some cs => iterCommitsSince cs since

/-- Seconds in a day: `timedelta(days=days_back)` as an epoch-seconds
offset. -/
def secondsPerDay : Int := 86400

/-- The `since_date = datetime.now() - timedelta(days=days_back)` cutoff
(src/functions/git_history.py:141), computed for every `days_back`,
including `0`. -/
def sinceDate (now : Int) (days_back : Nat) : Int :=
  now - (days_back : Int) * secondsPerDay

/-- The `history` dict built at src/functions/git_history.py:259-274.
`repo_name` (derived from the working directory) and the
`contributor`/`filtered_by` echoes of the filter argument are
presentation fields omitted here. -/
structure History where
  total_commits : Nat
  commits : List CommitRecord
  period : PyStr
  contributors : List (PyStr × Rollup)
  repository_structure : List PyStr
deriving DecidableEq

/-- Builds the mining result from the resolved commit list
(src/functions/git_history.py:172-274). -/
def mkHistory (repoPath : PyStr) (walk : List (PyStr × Nat))
    (days_back : Nat) (filt : Option (List PyStr)) (cs : List PyCommit) :
    History :=
  let st := processCommits filt cs
  { total_commits := st.records.length
    commits := st.records
    period :=
      if 0 < days_back then
        ("Last ").data ++ Nat.toDigits 10 days_back ++ (" days").data
      else ("All time").data
    contributors := st.contributors
    repository_structure := get_repository_structure repoPath walk }

/-- Embeds `get_git_history` (src/functions/git_history.py:121-282).
`repo = none` models `Repo(repo_path)` raising (path that is not a git
repository): the outer `except` returns `None`.  `branch = some b` with
`b` unresolvable models the `except` at lines 151-153: `return None`.
An explicitly given empty branch string is falsy (`if branch:`) and
takes the default-resolution path. -/
def get_git_history (repo : Option GitRepo) (repoPath : PyStr)
    (walk : List (PyStr × Nat)) (now : Int) (days_back : Nat)
    (contributor_filter : Option (List PyStr)) (branch : Option PyStr) :
    Option History :=
  match repo with
  | none => none
  | some repo =>
    let since := sinceDate now days_back
    let defaultResolve : List PyCommit :=
      let cs1 := branchCommitsSince repo ("main").data since
      let cs2 :=
        if cs1.isEmpty then branchCommitsSince repo ("master").data since
        else cs1
      if cs2.isEmpty then repo.headCommits else cs2
    let commitsRange : Option (List PyCommit) :=
      match branch with
      | some b =>
        if b.isEmpty then some defaultResolve
        else
          match lookupBranch repo b with
          | none => none
          | some cs => some (iterCommitsSince cs since)
      | none => some defaultResolve
    match commitsRange with
    | none => none
    | some cs => some (mkHistory repoPath walk days_back contributor_filter cs)

/-! ## Theorems -/

/-- A line that counts as added starts with `+`, so it cannot also count
as deleted. -/
theorem added_not_deleted (l : PyStr) (h : isAddedLine l = true) :
    isDeletedLine l = false := by
  cases l with
  | nil => simp [isAddedLine, startswith, List.isPrefixOf] at h
  | cons c cs =>
    simp [isAddedLine, startswith, List.isPrefixOf] at h
    simp [isDeletedLine, startswith, List.isPrefixOf]
    intro hm
    rw [← h.1] at hm
    exact absurd hm (by decide)

/-- The counting loop of `analyze_diff_for_lines` computes the two
`countP`s of the line predicates. -/
theorem foldl_diffLineStep (lines : List PyStr) (a b : Nat) :
    lines.foldl diffLineStep (a, b) =
      (a + lines.countP isAddedLine, b + lines.countP isDeletedLine) := by
  induction lines generalizing a b with
  | nil => simp
  | cons l ls ih =>
    by_cases hA : isAddedLine l = true
    · have hD := added_not_deleted l hA
      simp [diffLineStep, hA, hD, ih, List.countP_cons]
      omega
    · by_cases hD : isDeletedLine l = true
      · simp [diffLineStep, hA, hD, ih, List.countP_cons]
        omega
      · simp [diffLineStep, hA, hD, ih, List.countP_cons]

/-- C1: for every diff text, `analyze_diff_for_lines` returns the number
of physical lines starting with `+` but not with `+++` and the number of
lines starting with `-` but not with `---`; the two header lines
`"+++ b/file.py\n--- a/file.py\n"` yield `(0, 0)`, `"+line one\n-line
two\n"` yields `(1, 1)`, and `None` or empty input yields `(0, 0)`. -/
theorem count_lines_line_prefixes (s : PyStr) :
    analyze_diff_for_lines (some s) =
      ((pySplit '\n' s).countP isAddedLine,
       (pySplit '\n' s).countP isDeletedLine) ∧
    analyze_diff_for_lines none = (0, 0) ∧
    analyze_diff_for_lines (some []) = (0, 0) ∧
    analyze_diff_for_lines (some ("+++ b/file.py\n--- a/file.py\n").data) =
      (0, 0) ∧
    analyze_diff_for_lines (some ("+line one\n-line two\n").data) = (1, 1) := by
  refine ⟨?_, rfl, by decide, by decide, by decide⟩
  by_cases h : s = []
  · subst h; decide
  · simp only [analyze_diff_for_lines, h, if_false, ite_false]
    rw [foldl_diffLineStep]
    simp

/-- C3: `analyze_commit_message` lower-cases the message and returns the
first matching category in priority order fix, feature, refactor, docs,
other; a message containing both "fix" and "add" classifies as fix,
"general cleanup" as refactor, "update docs" as docs. -/
theorem commit_classifier_priority (m : PyStr) :
    (anyKeywordIn fixKeywords (pyLower m) = true →
      analyze_commit_message m = ("fix").data) ∧
    (anyKeywordIn fixKeywords (pyLower m) = false →
     anyKeywordIn featureKeywords (pyLower m) = true →
      analyze_commit_message m = ("feature").data) ∧
    (anyKeywordIn fixKeywords (pyLower m) = false →
     anyKeywordIn featureKeywords (pyLower m) = false →
     anyKeywordIn refactorKeywords (pyLower m) = true →
      analyze_commit_message m = ("refactor").data) ∧
    (anyKeywordIn fixKeywords (pyLower m) = false →
     anyKeywordIn featureKeywords (pyLower m) = false →
     anyKeywordIn refactorKeywords (pyLower m) = false →
     anyKeywordIn docsKeywords (pyLower m) = true →
      analyze_commit_message m = ("docs").data) ∧
    (anyKeywordIn fixKeywords (pyLower m) = false →
     anyKeywordIn featureKeywords (pyLower m) = false →
     anyKeywordIn refactorKeywords (pyLower m) = false →
     anyKeywordIn docsKeywords (pyLower m) = false →
      analyze_commit_message m = ("other").data) ∧
    analyze_commit_message ("Fix crash and add tests").data = ("fix").data ∧
    analyze_commit_message ("general cleanup").data = ("refactor").data ∧
    analyze_commit_message ("update docs").data = ("docs").data := by
  refine ⟨?_, ?_, ?_, ?_, ?_, by decide, by decide, by decide⟩ <;>
    intros <;> simp_all [analyze_commit_message]

/-- Applies the classifier priority to a concrete message holding a fix
keyword. -/
theorem commit_classifier_priority_witness :
    analyze_commit_message ("bug in parser").data = ("fix").data :=
  (commit_classifier_priority (("bug in parser").data)).1 (by decide)

/-! ### The contributor-rollup invariant -/

instance : Inhabited Rollup := ⟨⟨0, 0, 0, 0⟩⟩

/-- Sum of one rollup field over the contributors mapping. -/
def rollupSum (m : List (PyStr × Rollup)) (f : Rollup → Nat) : Nat :=
  (m.map (fun p => f p.2)).sum

def contribKeys (m : List (PyStr × Rollup)) : List PyStr := m.map Prod.fst

/-- First-match lookup in the contributors mapping, with the
defaultdict's zero default. -/
def lookupRollup (m : List (PyStr × Rollup)) (a : PyStr) : Rollup :=
  match m with
  | [] => ⟨0, 0, 0, 0⟩
  | (k, r) :: rest => if k = a then r else lookupRollup rest a

/-- The commit records attributed to author `a`. -/
def authorRecords (rs : List CommitRecord) (a : PyStr) : List CommitRecord :=
  rs.filter (fun r => r.author == a)

/-- The rollup the records attributed to `a` should add up to. -/
def authorStats (rs : List CommitRecord) (a : PyStr) : Rollup :=
  ⟨(authorRecords rs a).length,
   ((authorRecords rs a).map CommitRecord.lines_added).sum,
   ((authorRecords rs a).map CommitRecord.lines_deleted).sum,
   ((authorRecords rs a).map CommitRecord.files_changed).sum⟩

theorem rollupSum_cons (p : PyStr × Rollup) (rest : List (PyStr × Rollup))
    (f : Rollup → Nat) :
    rollupSum (p :: rest) f = f p.2 + rollupSum rest f := by
  simp [rollupSum]

theorem rollupSum_updateContributor (m : List (PyStr × Rollup)) (a : PyStr)
    (la ld fc : Nat) :
    rollupSum (updateContributor m a la ld fc) Rollup.commits =
      rollupSum m Rollup.commits + 1 := by
  induction m with
  | nil => simp [updateContributor, rollupSum]
  | cons p rest ih =>
    obtain ⟨k, r⟩ := p
    by_cases h : k = a
    · simp [updateContributor, h, rollupSum_cons]
      omega
    · simp [updateContributor, h, rollupSum_cons, ih]
      omega

theorem contribKeys_updateContributor (m : List (PyStr × Rollup)) (a : PyStr)
    (la ld fc : Nat) :
    contribKeys (updateContributor m a la ld fc) =
      if a ∈ contribKeys m then contribKeys m else contribKeys m ++ [a] := by
  induction m with
  | nil => simp [updateContributor, contribKeys]
  | cons p rest ih =>
    obtain ⟨k, r⟩ := p
    by_cases h : k = a
    · subst h
      simp [updateContributor, contribKeys]
    · have hka : ¬a = k := fun hh => h hh.symm
      simp only [updateContributor, if_neg h, contribKeys, List.map_cons] at ih ⊢
      rw [ih]
      by_cases ha : a ∈ List.map Prod.fst rest
      · simp [List.mem_cons, hka, ha]
      · simp [List.mem_cons, hka, ha]

theorem lookupRollup_updateContributor_self (m : List (PyStr × Rollup))
    (a : PyStr) (la ld fc : Nat) :
    lookupRollup (updateContributor m a la ld fc) a =
      ⟨(lookupRollup m a).commits + 1, (lookupRollup m a).lines_added + la,
       (lookupRollup m a).lines_deleted + ld,
       (lookupRollup m a).files_changed + fc⟩ := by
  induction m with
  | nil => simp [updateContributor, lookupRollup]
  | cons p rest ih =>
    obtain ⟨k, r⟩ := p
    by_cases h : k = a
    · simp [updateContributor, h, lookupRollup]
    · simp [updateContributor, h, lookupRollup, ih]

theorem lookupRollup_updateContributor_ne (m : List (PyStr × Rollup))
    (a b : PyStr) (la ld fc : Nat) (h : b ≠ a) :
    lookupRollup (updateContributor m a la ld fc) b = lookupRollup m b := by
  have hab : ¬a = b := fun hh => h hh.symm
  induction m with
  | nil => simp [updateContributor, lookupRollup, hab]
  | cons p rest ih =>
    obtain ⟨k, r⟩ := p
    by_cases hk : k = a
    · have hkb : ¬k = b := fun hh => hab (hk.symm.trans hh)
      simp [updateContributor, hk, lookupRollup, hkb, hab]
    · by_cases hkb : k = b
      · subst hkb
        simp [updateContributor, hk, lookupRollup]
      · simp [updateContributor, hk, lookupRollup, hkb, ih]

theorem lookupRollup_of_mem (m : List (PyStr × Rollup)) (a : PyStr)
    (r : Rollup) (hnd : (contribKeys m).Nodup) (hm : (a, r) ∈ m) :
    lookupRollup m a = r := by
  induction m with
  | nil => simp at hm
  | cons p rest ih =>
    obtain ⟨k, r0⟩ := p
    simp only [contribKeys, List.map_cons, List.nodup_cons] at hnd
    rcases List.mem_cons.mp hm with h1 | h1
    · have hk : a = k := congrArg Prod.fst h1
      have hr : r = r0 := congrArg Prod.snd h1
      simp [lookupRollup, hk.symm, hr]
    · by_cases hk : k = a
      · exfalso
        apply hnd.1
        subst hk
        exact List.mem_map.mpr ⟨(k, r), h1, rfl⟩
      · simp only [lookupRollup, if_neg hk]
        exact ih hnd.2 h1

theorem authorRecords_append (rs : List CommitRecord) (rec : CommitRecord)
    (a : PyStr) :
    authorRecords (rs ++ [rec]) a =
      if rec.author = a then authorRecords rs a ++ [rec]
      else authorRecords rs a := by
  by_cases h : rec.author = a
  · simp [authorRecords, List.filter_append, h]
  · simp [authorRecords, List.filter_append, h]

/-- The loop invariant tying `contributors` to `commit_information`. -/
def MineInv (st : MineState) : Prop :=
  (contribKeys st.contributors).Nodup ∧
  st.records.length = rollupSum st.contributors Rollup.commits ∧
  ∀ a : PyStr, lookupRollup st.contributors a = authorStats st.records a

theorem mineStep_inv (filt : Option (List PyStr)) (st : MineState)
    (c : PyCommit) (h : MineInv st) : MineInv (mineStep filt st c) := by
  obtain ⟨hnd, hlen, hstats⟩ := h
  unfold mineStep
  by_cases h1 : 1 < c.parentsCount
  · simpa [h1] using ⟨hnd, hlen, hstats⟩
  · by_cases h2 : passesFilter filt c.authorName = true
    · simp only [h1, if_false, ite_false, h2, Bool.not_true, Bool.false_eq_true]
      refine ⟨?_, ?_, ?_⟩
      · rw [contribKeys_updateContributor]
        by_cases hmem : c.authorName ∈ contribKeys st.contributors
        · simpa [hmem] using hnd
        · simp [hmem, List.nodup_append, hnd]
      · rw [rollupSum_updateContributor]
        simp [hlen]
      · intro a
        by_cases ha : c.authorName = a
        · subst ha
          rw [lookupRollup_updateContributor_self, hstats]
          simp [authorStats, authorRecords_append, mkCommitRecord]
        · rw [lookupRollup_updateContributor_ne _ _ _ _ _ _
            (fun hh => ha hh.symm), hstats]
          simp [authorStats, authorRecords_append, mkCommitRecord, ha]
    · simp only [Bool.not_eq_true] at h2
      simpa [h1, h2] using ⟨hnd, hlen, hstats⟩

theorem processCommits_inv (filt : Option (List PyStr)) (cs : List PyCommit) :
    MineInv (processCommits filt cs) := by
  have base : MineInv ⟨[], []⟩ := by
    refine ⟨List.nodup_nil, rfl, fun a => ?_⟩
    simp [lookupRollup, authorStats, authorRecords]
  unfold processCommits
  generalize hst : (⟨[], []⟩ : MineState) = st at base
  clear hst
  induction cs generalizing st with
  | nil => exact base
  | cons c cs ih => exact ih _ (mineStep_inv filt st c base)

/-- Every mining result `get_git_history` produces is `mkHistory` of some
resolved commit list. -/
theorem get_git_history_eq_mkHistory (repo : Option GitRepo) (repoPath : PyStr)
    (walk : List (PyStr × Nat)) (now : Int) (days_back : Nat)
    (filt : Option (List PyStr)) (branch : Option PyStr) (h : History)
    (hres : get_git_history repo repoPath walk now days_back filt branch =
      some h) :
    ∃ cs, h = mkHistory repoPath walk days_back filt cs := by
  cases repo with
  | none => simp [get_git_history] at hres
  | some repo =>
    cases branch with
    | none =>
      simp only [get_git_history] at hres
      exact ⟨_, (Option.some.inj hres).symm⟩
    | some b =>
      by_cases hb : b.isEmpty
      · simp only [get_git_history, hb, if_true, ite_true] at hres
        exact ⟨_, (Option.some.inj hres).symm⟩
      · cases hl : lookupBranch repo b with
        | none => simp [get_git_history, hb, hl] at hres
        | some cs =>
          simp only [get_git_history, hb, hl, if_false, ite_false,
            Bool.false_eq_true] at hres
          exact ⟨_, (Option.some.inj hres).symm⟩

/-- C2: in every mining result of `get_git_history`, the length of
`commits` equals the sum of the contributors' `commits` counts, and each
contributor's four rollup fields equal the corresponding counts and sums
over exactly the commit records whose author is that contributor. -/
theorem mining_result_rollup_invariant (repo : Option GitRepo)
    (repoPath : PyStr) (walk : List (PyStr × Nat)) (now : Int)
    (days_back : Nat) (filt : Option (List PyStr)) (branch : Option PyStr)
    (h : History)
    (hres : get_git_history repo repoPath walk now days_back filt branch =
      some h) :
    h.commits.length = rollupSum h.contributors Rollup.commits ∧
    ∀ a r, (a, r) ∈ h.contributors →
      r.commits = (authorRecords h.commits a).length ∧
      r.lines_added =
        ((authorRecords h.commits a).map CommitRecord.lines_added).sum ∧
      r.lines_deleted =
        ((authorRecords h.commits a).map CommitRecord.lines_deleted).sum ∧
      r.files_changed =
        ((authorRecords h.commits a).map CommitRecord.files_changed).sum := by
  obtain ⟨cs, rfl⟩ := get_git_history_eq_mkHistory repo repoPath walk now
    days_back filt branch h hres
  obtain ⟨hnd, hlen, hstats⟩ := processCommits_inv filt cs
  have hcomm : (mkHistory repoPath walk days_back filt cs).commits =
      (processCommits filt cs).records := rfl
  have hcontrib : (mkHistory repoPath walk days_back filt cs).contributors =
      (processCommits filt cs).contributors := rfl
  rw [hcomm, hcontrib]
  refine ⟨hlen, fun a r hm => ?_⟩
  have hlook := lookupRollup_of_mem _ a r hnd hm
  rw [hstats a] at hlook
  rw [← hlook]
  exact ⟨rfl, rfl, rfl, rfl⟩

/-- A concrete one-commit mining run instantiating the rollup
invariant. -/
def c2commit : PyCommit :=
  { hexsha := ("abc").data
    parentsCount := 0
    authorName := ("alice").data
    committedDate := 10
    message := ("fix bug").data
    diffs := [(("f.py").data, ("+x\n").data)] }

def c2repo : GitRepo :=
  { branches := [(("main").data, [c2commit])], headCommits := [c2commit] }

/-- Applies the rollup invariant to the concrete one-commit run. -/
theorem mining_result_rollup_invariant_witness :
    (mkHistory (("r").data) [] 30 none [c2commit]).commits.length =
      rollupSum (mkHistory (("r").data) [] 30 none [c2commit]).contributors
        Rollup.commits ∧
    (1 : Nat) =
      (authorRecords (mkHistory (("r").data) [] 30 none [c2commit]).commits
        (("alice").data)).length := by
  have H := mining_result_rollup_invariant (some c2repo) (("r").data) [] 0 30
    none none (mkHistory (("r").data) [] 30 none [c2commit]) (by decide)
  exact ⟨H.1, (H.2 (("alice").data) ⟨1, 1, 0, 1⟩ (by decide)).1⟩

/-! ### Merge-commit exclusion -/

/-- A step on a merge commit leaves the state unchanged. -/
theorem mineStep_merge (filt : Option (List PyStr)) (st : MineState)
    (c : PyCommit) (h : 1 < c.parentsCount) : mineStep filt st c = st := by
  simp [mineStep, h]

theorem foldl_mineStep_filter_merges (filt : Option (List PyStr))
    (cs : List PyCommit) (st : MineState) :
    cs.foldl (mineStep filt) st =
      (cs.filter (fun c => c.parentsCount ≤ 1)).foldl (mineStep filt) st := by
  induction cs generalizing st with
  | nil => rfl
  | cons c cs ih =>
    by_cases h : c.parentsCount ≤ 1
    · simp only [List.foldl_cons, List.filter_cons, decide_eq_true_eq, h,
        if_true, ite_true]
      exact ih _
    · have h1 : 1 < c.parentsCount := by omega
      simp only [List.foldl_cons, List.filter_cons, decide_eq_true_eq, h,
        if_false, ite_false, mineStep_merge filt st c h1]
      exact ih _

/-- C4: commits with more than one parent are skipped entirely: the
mining result equals the result on the commit range with the merge
commits removed, and a merge commit that is the only commit in range
produces an empty state. -/
theorem merge_commit_exclusion (repoPath : PyStr) (walk : List (PyStr × Nat))
    (days_back : Nat) (filt : Option (List PyStr)) (cs : List PyCommit)
    (c : PyCommit) :
    mkHistory repoPath walk days_back filt cs =
      mkHistory repoPath walk days_back filt
        (cs.filter (fun c => c.parentsCount ≤ 1)) ∧
    (1 < c.parentsCount → processCommits filt [c] = ⟨[], []⟩) := by
  constructor
  · unfold mkHistory processCommits
    rw [foldl_mineStep_filter_merges]
  · intro h
    simp [processCommits, mineStep_merge filt _ c h]

/-- Applies the merge-exclusion theorem to a two-parent commit that is
the only commit in range. -/
theorem merge_commit_exclusion_witness :
    processCommits none
      [{ hexsha := ("m").data, parentsCount := 2,
         authorName := ("bob").data, committedDate := 5,
         message := ("merge").data, diffs := [] }] = ⟨[], []⟩ :=
  (merge_commit_exclusion [] [] 30 none []
    { hexsha := ("m").data, parentsCount := 2, authorName := ("bob").data,
      committedDate := 5, message := ("merge").data, diffs := [] }).2
    (by decide)

/-! ### Branch resolution -/

def c5commit : PyCommit :=
  { hexsha := ("c5").data, parentsCount := 0, authorName := ("carol").data,
    committedDate := 500, message := ("work").data, diffs := [] }

/-- A repository whose commits live only on `master`. -/
def c5repo : GitRepo :=
  { branches := [(("master").data, [c5commit])], headCommits := [] }

/-- A repository with a matching `main` branch. -/
def c5repoMain : GitRepo :=
  { branches := [(("main").data, [c5commit])], headCommits := [] }

/-- C5: with no explicit branch, `get_git_history` first tries `main`
with the date filter, then `master` with the date filter, then falls
back to the full commit history of the current head with no date
filter; a repository whose commits live only on `master` yields a
non-empty commits sequence. -/
theorem branch_fallback_resolution (repo : GitRepo) (repoPath : PyStr)
    (walk : List (PyStr × Nat)) (now : Int) (days_back : Nat)
    (filt : Option (List PyStr)) :
    (branchCommitsSince repo (("main").data) (sinceDate now days_back) ≠ [] →
      get_git_history (some repo) repoPath walk now days_back filt none =
        some (mkHistory repoPath walk days_back filt
          (branchCommitsSince repo (("main").data)
            (sinceDate now days_back)))) ∧
    (branchCommitsSince repo (("main").data) (sinceDate now days_back) = [] →
     branchCommitsSince repo (("master").data) (sinceDate now days_back) ≠ [] →
      get_git_history (some repo) repoPath walk now days_back filt none =
        some (mkHistory repoPath walk days_back filt
          (branchCommitsSince repo (("master").data)
            (sinceDate now days_back)))) ∧
    (branchCommitsSince repo (("main").data) (sinceDate now days_back) = [] →
     branchCommitsSince repo (("master").data) (sinceDate now days_back) = [] →
      get_git_history (some repo) repoPath walk now days_back filt none =
        some (mkHistory repoPath walk days_back filt repo.headCommits)) ∧
    (get_git_history (some c5repo) (("r").data) [] 1000 30 none none).map
      (fun h => h.total_commits) = some 1 := by
  refine ⟨?_, ?_, ?_, by decide⟩
  · intro h1
    have h1' : (branchCommitsSince repo (("main").data)
        (sinceDate now days_back)).isEmpty = false := by
      rw [Bool.eq_false_iff]
      simpa [List.isEmpty_iff] using h1
    simp [get_git_history, h1']
  · intro h1 h2
    have h1' : (branchCommitsSince repo (("main").data)
        (sinceDate now days_back)).isEmpty = true := by
      simpa [List.isEmpty_iff] using h1
    have h2' : (branchCommitsSince repo (("master").data)
        (sinceDate now days_back)).isEmpty = false := by
      rw [Bool.eq_false_iff]
      simpa [List.isEmpty_iff] using h2
    simp [get_git_history, h1', h2']
  · intro h1 h2
    have h1' : (branchCommitsSince repo (("main").data)
        (sinceDate now days_back)).isEmpty = true := by
      simpa [List.isEmpty_iff] using h1
    have h2' : (branchCommitsSince repo (("master").data)
        (sinceDate now days_back)).isEmpty = true := by
      simpa [List.isEmpty_iff] using h2
    simp [get_git_history, h1', h2']

/-- Applies the fallback-order theorem to a repository with a matching
`main` branch. -/
theorem branch_fallback_resolution_witness :
    get_git_history (some c5repoMain) (("r").data) [] 1000 30 none none =
      some (mkHistory (("r").data) [] 30 none
        (branchCommitsSince c5repoMain (("main").data) (sinceDate 1000 30))) :=
  (branch_fallback_resolution c5repoMain (("r").data) [] 1000 30 none).1
    (by decide)

/-! ### The date filter -/

/-- A commit dated 100 seconds before the mining call. -/
def c6commit : PyCommit :=
  { hexsha := ("h1").data, parentsCount := 0, authorName := ("dana").data,
    committedDate := -100, message := ("msg").data, diffs := [] }

def c6repo : GitRepo :=
  { branches := [(("dev").data, [c6commit])], headCommits := [c6commit] }

/-- An old commit reachable only through the no-branch full-history
fallback. -/
def c6old : PyCommit :=
  { hexsha := ("h2").data, parentsCount := 0, authorName := ("erin").data,
    committedDate := 0, message := ("old work").data, diffs := [] }

def c6masterRepo : GitRepo :=
  { branches := [(("master").data, [c6old])], headCommits := [c6old] }

/-- C6 counterexample: with `days_back = 0` and an explicit branch, the
cutoff is `now` itself, so a commit dated before `now` on that branch is
excluded — the date filter is not disabled. -/
theorem date_filter_zero_counterexample :
    lookupBranch c6repo (("dev").data) = some [c6commit] ∧
    c6commit.committedDate < sinceDate 0 0 ∧
    (get_git_history (some c6repo) (("r").data) [] 0 0 none
      (some (("dev").data))).map (fun h => h.commits) = some [] := by
  decide

/-- C6 amended: the cutoff `now - days_back` days is applied for every
`days_back`, including `0`, to the explicit-branch attempt (so
`days_back = 0` admits only commits dated at or after `now`), while the
no-branch full-history fallback ignores the date filter even when
`days_back > 0`. -/
theorem date_filter_actual_behavior (repo : GitRepo) (repoPath : PyStr)
    (walk : List (PyStr × Nat)) (now : Int) (days_back : Nat)
    (filt : Option (List PyStr)) (b : PyStr) (cs : List PyCommit) :
    (lookupBranch repo b = some cs → b ≠ [] →
      get_git_history (some repo) repoPath walk now days_back filt (some b) =
        some (mkHistory repoPath walk days_back filt
          (cs.filter (fun c => sinceDate now days_back ≤ c.committedDate)))) ∧
    c6old.committedDate < sinceDate 1000000 1 ∧
    (get_git_history (some c6masterRepo) (("r").data) [] 1000000 1 none
      none).map (fun h => h.commits) = some [mkCommitRecord c6old] := by
  refine ⟨?_, by decide, by decide⟩
  intro hl hb
  have hb' : b.isEmpty = false := by
    rw [Bool.eq_false_iff]
    simpa [List.isEmpty_iff] using hb
  simp [get_git_history, hb', hl, iterCommitsSince]

/-- Applies the amended date-filter theorem to the explicit-branch
`days_back = 0` run. -/
theorem date_filter_actual_behavior_witness :
    get_git_history (some c6repo) (("r").data) [] 0 0 none
      (some (("dev").data)) =
      some (mkHistory (("r").data) [] 0 none
        ([c6commit].filter (fun c => sinceDate 0 0 ≤ c.committedDate))) :=
  (date_filter_actual_behavior c6repo (("r").data) [] 0 0 none
    (("dev").data) [c6commit]).1 (by decide) (by decide)

/-! ### Error handling for explicit branches -/

def c7repo : GitRepo := { branches := [], headCommits := [] }

def c7commit : PyCommit :=
  { hexsha := ("h7").data, parentsCount := 0, authorName := ("finn").data,
    committedDate := -5, message := ("m7").data, diffs := [] }

def c7branchRepo : GitRepo :=
  { branches := [(("dev").data, [c7commit])], headCommits := [c7commit] }

/-- C7 counterexample: an explicitly given branch that cannot be
resolved makes `get_git_history` return the Failure value `none`
(src/functions/git_history.py:151-153), not a degraded Mining Result. -/
theorem unresolvable_branch_counterexample :
    get_git_history (some c7repo) (("r").data) [] 0 30 none
      (some (("topic").data)) = none := by
  decide

/-- C7 amended: an explicitly given branch that resolves but matches
zero commits only degrades (a warning, and a Mining Result with an
empty commit list is still returned); the fatal conditions returning
the Failure value are an unopenable repository path and an explicitly
given branch that cannot be resolved. -/
theorem branch_error_handling (repo : GitRepo) (repoPath : PyStr)
    (walk : List (PyStr × Nat)) (now : Int) (days_back : Nat)
    (filt : Option (List PyStr)) (b : PyStr) (cs : List PyCommit)
    (branch : Option PyStr) :
    (lookupBranch repo b = some cs → b ≠ [] →
      (get_git_history (some repo) repoPath walk now days_back filt
        (some b)).isSome = true) ∧
    (lookupBranch repo b = none → b ≠ [] →
      get_git_history (some repo) repoPath walk now days_back filt
        (some b) = none) ∧
    get_git_history none repoPath walk now days_back filt branch = none := by
  refine ⟨?_, ?_, rfl⟩
  · intro hl hb
    have hb' : b.isEmpty = false := by
      rw [Bool.eq_false_iff]
      simpa [List.isEmpty_iff] using hb
    simp [get_git_history, hb', hl]
  · intro hl hb
    have hb' : b.isEmpty = false := by
      rw [Bool.eq_false_iff]
      simpa [List.isEmpty_iff] using hb
    simp [get_git_history, hb', hl]

/-- Applies the error-handling theorem: a resolvable branch with zero
matching commits still yields a result, an unresolvable one yields
`none`. -/
theorem branch_error_handling_witness :
    (get_git_history (some c7branchRepo) (("r").data) [] 0 0 none
      (some (("dev").data))).isSome = true ∧
    get_git_history (some c7branchRepo) (("r").data) [] 0 0 none
      (some (("gone").data)) = none := by
  constructor
  · exact (branch_error_handling c7branchRepo (("r").data) [] 0 0 none
      (("dev").data) [c7commit] none).1 (by decide) (by decide)
  · exact (branch_error_handling c7branchRepo (("r").data) [] 0 0 none
      (("gone").data) [] none).2.1 (by decide) (by decide)

/-! ### Diff file identity -/

/-- The file-identity choice the entry loop actually makes: prefer the
pre-change path `a_path`, fall back to the post-change path `b_path`. -/
def entryKeyPre (e : DiffEntry) : Option PyStr :=
  match e.a_path with
  | some p => some p
  | none => e.b_path

/-- Modelled from the spec's words: prefer the post-change path; fall
back to the pre-change path only if the file was deleted (no post-change
path). -/
def entryKeyPost (e : DiffEntry) : Option PyStr :=
  match e.b_path with
  | some p => some p
  | none => e.a_path

/-- A renamed file: both paths present and different. -/
def c8rename : DiffEntry :=
  { a_path := some ("old.py").data, b_path := some ("new.py").data,
    diff := some ("x").data }

/-- C8 counterexample: for a renamed file the post-change path exists,
yet the produced diff mapping keys the entry by the pre-change path, not
the post-change path the claim names. -/
theorem diff_identity_counterexample :
    entryKeyPost c8rename = some (("new.py").data) ∧
    get_commit_diffs_by_file [c8rename] =
      [((("old.py").data), ("x").data)] ∧
    ¬ ((("new.py").data, ("x").data) ∈ get_commit_diffs_by_file [c8rename]) := by
  decide

/-- C8 amended: the file-identity key prefers the pre-change path,
falls back to the post-change path only when there is no pre-change path
(newly added file), and entries with neither path are skipped. -/
theorem diff_file_identity (entries : List DiffEntry) :
    get_commit_diffs_by_file entries =
      entries.foldl
        (fun diffs e =>
          match entryKeyPre e with
          | some k => dictSet diffs k (diffEntryText e)
          | none => diffs) [] ∧
    get_commit_diffs_by_file
      [{ a_path := none, b_path := none, diff := some ("y").data }] = [] := by
  constructor
  · refine List.foldl_ext _ _ _ (fun diffs e _ => ?_)
    cases ha : e.a_path with
    | some p => simp [diffsStep, entryKeyPre, ha]
    | none =>
      cases hb : e.b_path with
      | some p => simp [diffsStep, entryKeyPre, ha, hb]
      | none => simp [diffsStep, entryKeyPre, ha, hb]
  · decide

/-! ### The repository structure snapshot -/

/-- The walk of a repository with a directory chain `a/b/c` below the
root. -/
def c9walk : List (PyStr × Nat) :=
  [((("repo").data), 0), ((("repo/a").data), 0), ((("repo/a/b").data), 0),
   ((("repo/a/b/c").data), 0)]

/-- C9: the snapshot is capped at 10 entries, but the depth guard
`if len(rel_path.split(os.sep)) > 2: continue` is the final statement of
the loop body and so limits nothing: the entry for `a/b/c`, whose
relative path splits into 3 segments, appears in the snapshot. -/
theorem structure_depth_unbounded :
    ("a/b/c/: 0 files").data ∈ get_repository_structure (("repo").data) c9walk ∧
    2 < (pySplit '/' (("a/b/c").data)).length ∧
    (get_repository_structure (("repo").data) c9walk).length ≤ 10 := by
  decide

/-- `isPrefixOf` is transitive. -/
theorem isPrefixOf_trans (p l r : PyStr) (h1 : l.isPrefixOf p = true)
    (h2 : p.isPrefixOf r = true) : l.isPrefixOf r = true := by
  induction p generalizing l r with
  | nil =>
    cases l with
    | nil => simp [List.isPrefixOf]
    | cons a as => simp [List.isPrefixOf] at h1
  | cons q qs ih =>
    cases l with
    | nil => simp [List.isPrefixOf]
    | cons a as =>
      cases r with
      | nil => simp [List.isPrefixOf] at h2
      | cons b bs =>
        simp only [List.isPrefixOf, Bool.and_eq_true, beq_iff_eq] at h1 h2 ⊢
        exact ⟨h1.1.trans h2.1, ih as bs h1.2 h2.2⟩

theorem strIn_nil (r : PyStr) : strIn [] r = true := by
  induction r with
  | nil => simp [strIn, List.isEmpty]
  | cons c rest ih => simp [strIn, List.isPrefixOf]

/-- A substring of a prefix is a substring of the whole. -/
theorem strIn_of_isPrefixOf (kw p r : PyStr) (h1 : strIn kw p = true)
    (h2 : p.isPrefixOf r = true) : strIn kw r = true := by
  induction p generalizing r with
  | nil =>
    have : kw = [] := by
      cases kw with
      | nil => rfl
      | cons a as => simp [strIn, List.isEmpty] at h1
    subst this
    exact strIn_nil r
  | cons c ps ih =>
    cases r with
    | nil => simp [List.isPrefixOf] at h2
    | cons d rs =>
      simp only [List.isPrefixOf, Bool.and_eq_true, beq_iff_eq] at h2
      simp only [strIn, Bool.or_eq_true] at h1
      rcases h1 with h1 | h1
      · have : kw.isPrefixOf (d :: rs) = true :=
          isPrefixOf_trans (c :: ps) kw (d :: rs) h1
            (by simp [List.isPrefixOf, h2.1, h2.2])
        simp [strIn, this]
      · have := ih rs h1 h2.2
        simp [strIn, this]

/-- A walk of a repository whose own path contains `.git`. -/
def c10walk : List (PyStr × Nat) :=
  [((("/tmp/x.git/repo").data), 3), ((("/tmp/x.git/repo/src").data), 2)]

/-- C10: the guard `if ".git" in root: continue` excludes any walked
directory whose full path contains `.git` anywhere: if the repository
path itself contains `.git`, every walked directory is skipped and the
snapshot is empty; a subdirectory like `.github` is likewise excluded
even though it is not the version-control metadata directory. -/
theorem git_substring_exclusion (repoPath : PyStr)
    (walk : List (PyStr × Nat)) :
    (strIn (".git").data repoPath = true →
     (∀ e ∈ walk, repoPath.isPrefixOf e.1 = true) →
     get_repository_structure repoPath walk = []) ∧
    get_repository_structure (("repo").data)
      [((("repo").data), 1), ((("repo/.github").data), 5),
       ((("repo/docs").data), 3)] =
      [("Root: 1 files").data, ("docs/: 3 files").data] := by
  refine ⟨?_, by decide⟩
  intro hgit hpref
  have hall : ∀ e ∈ walk, structureEntry repoPath e = none := by
    intro e he
    have : strIn (".git").data e.1 = true :=
      strIn_of_isPrefixOf _ repoPath e.1 hgit (hpref e he)
    simp [structureEntry, this]
  unfold get_repository_structure
  rw [List.filterMap_eq_nil_iff.mpr hall]
  rfl

/-- Applies the `.git`-substring exclusion to a repository path that
contains `.git`. -/
theorem git_substring_exclusion_witness :
    get_repository_structure (("/tmp/x.git/repo").data) c10walk = [] :=
  (git_substring_exclusion (("/tmp/x.git/repo").data) c10walk).1
    (by decide) (by decide)
